import Mathlib

/-!
Shallow embedding of the bladeski/logger TypeScript logging core.

Modelled source files:
* `src/core/InMemoryCoreLogger.ts` — `InMemoryCoreLogger` (canonical bounded
  in-memory buffer with `addEntry`/`setMaxLogs`/`getLogs`/`clearLogs`,
  `safeSerialize`, `extractMessage`, `extractEventData`) and
  `LocalStorageCoreLogger` (persistent storage sink).
* `ConsoleCoreLogger.ts` — console sink.
* `LoggingService.ts` — singleton coordinator (`initialize`, `broadcast`,
  `clearLogs`).

JavaScript objects are modelled by a heap (`List JSNode`, address = index)
so that cyclic and shared structures — which matter to the serializer's
cycle policy — are expressible.  Machine "numbers" relevant to the claims
are integers, modelled as `Int`/`Nat`.  Fallible JS operations are either
total (mirroring the source's try/catch) or return `Option`.
-/

/-- JS primitive values (the `typeof x !== 'object'` world, plus `null`,
which has `typeof 'object'` but is special-cased by the source). -/
inductive JSPrim where
  | str (s : String)
  | num (n : Int)
  | boolV (b : Bool)
  | null
  | undefV
  deriving DecidableEq, Repr

/-- A JS value: a primitive or a reference to a heap object. -/
inductive JSVal where
  | prim (p : JSPrim)
  | ref (a : Nat)
  deriving DecidableEq, Repr

/-- A heap object, classified the way the serializer's `instanceof` chain
classifies values: Error, Date, RegExp, Map, Set, array, or plain object. -/
inductive JSNode where
  | obj (fields : List (String × JSVal))
  | arr (elems : List JSVal)
  | errObj (name message stack : String)
  | date (iso : String)
  | regexp (src : String)
  | mapObj (entries : List (JSVal × JSVal))
  | setObj (elems : List JSVal)
  deriving DecidableEq, Repr

/-- The JS heap: address `a` holds `heap.get? a`. -/
abbrev Heap := List JSNode

/-- JS truthiness of a value (`''`, `0`, `false`, `null`, `undefined` are
falsy; every object reference is truthy). -/
def jsTruthy : JSVal → Bool
  | .prim (.str s) => s ≠ ""
  | .prim (.num n) => n ≠ 0
  | .prim (.boolV b) => b
  | .prim .null => false
  | .prim .undefV => false
  | .ref _ => true

/-- Output domain of the serializer: JSON-like trees.  `rawRef` stands for a
raw, unserialized object reference placed into the output verbatim (the Map
branch emits its keys without serializing them). -/
inductive JOut where
  | str (s : String)
  | num (n : Int)
  | boolV (b : Bool)
  | null
  | undefV
  | obj (fields : List (String × JOut))
  | arr (elems : List JOut)
  | rawRef (a : Nat)

/-- Embed a primitive into the output domain. -/
def JOut.ofPrim : JSPrim → JOut
  | .str s => .str s
  | .num n => .num n
  | .boolV b => .boolV b
  | .null => .null
  | .undefV => .undefV

/-- A raw value placed into the output without serialization (Map keys). -/
def JOut.ofRaw : JSVal → JOut
  | .prim p => JOut.ofPrim p
  | .ref a => .rawRef a

mutual

/--
`serializer` from `InMemoryCoreLogger.safeSerialize` (and the identical one
in `LocalStorageCoreLogger`).  `seen` models the `WeakSet` of visited
objects: it is threaded through the whole traversal and never pruned,
exactly as the mutated `WeakSet` in the source.  `fuel` models the JS call
stack: exhaustion (`none`) corresponds to a stack overflow, which the
source's surrounding try/catch converts into a textual fallback.  Branches
appear in the source's `instanceof` order; Error/Date/RegExp/Map/Set never
consult or extend `seen`, only plain objects and arrays do.
-/
def serializeVal (heap : Heap) : Nat → List Nat → JSVal → Option (JOut × List Nat)
  | 0, _, _ => none
  | _fuel + 1, seen, .prim p => some (JOut.ofPrim p, seen)
  | fuel + 1, seen, .ref a =>
    match heap.get? a with
    | none => some (.undefV, seen)
    | some (.errObj n m s) =>
        some (.obj [("name", .str n), ("message", .str m), ("stack", .str s)], seen)
    | some (.date iso) =>
        some (.obj [("__type", .str "Date"), ("value", .str iso)], seen)
    | some (.regexp src) =>
        some (.obj [("__type", .str "RegExp"), ("value", .str src)], seen)
    | some (.mapObj entries) =>
        match serializeMapEntries heap fuel seen entries with
        | none => none
        | some (outs, seen1) =>
            some (.obj [("__type", .str "Map"), ("value", .arr outs)], seen1)
    | some (.setObj elems) =>
        match serializeElems heap fuel seen elems with
        | none => none
        | some (outs, seen1) =>
            some (.obj [("__type", .str "Set"), ("value", .arr outs)], seen1)
    | some (.obj fields) =>
        if a ∈ seen then some (.str "[Circular]", seen)
        else
          match serializeFields heap fuel (a :: seen) fields with
          | none => none
          | some (outs, seen1) => some (.obj outs, seen1)
    | some (.arr elems) =>
        if a ∈ seen then some (.str "[Circular]", seen)
        else
          match serializeElems heap fuel (a :: seen) elems with
          | none => none
          | some (outs, seen1) => some (.arr outs, seen1)
termination_by fuel _ _ => (fuel, 0, 0)

/-- Serialize the fields of a plain object, threading the visited set
left to right (the source's `for (const key of Object.keys(val))`). -/
def serializeFields (heap : Heap) (fuel : Nat) (seen : List Nat) :
    List (String × JSVal) → Option (List (String × JOut) × List Nat)
  | [] => some ([], seen)
  | (k, v) :: rest =>
    match serializeVal heap fuel seen v with
    | none => none
    | some (o, seen1) =>
      match serializeFields heap fuel seen1 rest with
      | none => none
      | some (os, seen2) => some ((k, o) :: os, seen2)
termination_by fs => (fuel, 1, fs.length)

/-- Serialize array/Set elements in order, threading the visited set. -/
def serializeElems (heap : Heap) (fuel : Nat) (seen : List Nat) :
    List JSVal → Option (List JOut × List Nat)
  | [] => some ([], seen)
  | v :: rest =>
    match serializeVal heap fuel seen v with
    | none => none
    | some (o, seen1) =>
      match serializeElems heap fuel seen1 rest with
      | none => none
      | some (os, seen2) => some (o :: os, seen2)
termination_by es => (fuel, 1, es.length)

/-- Serialize Map entries: keys are emitted raw, values serialized
(`[k, serializer(v)]` in the source). -/
def serializeMapEntries (heap : Heap) (fuel : Nat) (seen : List Nat) :
    List (JSVal × JSVal) → Option (List JOut × List Nat)
  | [] => some ([], seen)
  | (k, v) :: rest =>
    match serializeVal heap fuel seen v with
    | none => none
    | some (o, seen1) =>
      match serializeMapEntries heap fuel seen1 rest with
      | none => none
      | some (os, seen2) => some (.arr [JOut.ofRaw k, o] :: os, seen2)
termination_by es => (fuel, 1, es.length)

end

/-- Weight of a heap node: one call frame plus one per child. -/
def nodeWeight : JSNode → Nat
  | .obj fs => fs.length + 1
  | .arr es => es.length + 1
  | .mapObj es => es.length + 1
  | .setObj es => es.length + 1
  | _ => 1

/-- Generous call-stack budget for a given heap: any recursion that
exhausts it revisits some object unboundedly (only possible through the
Map/Set branches, which do not mark `seen`) and so models a JS stack
overflow. -/
def fuelBound (heap : Heap) : Nat :=
  (heap.map nodeWeight).sum + heap.length + 2

/-- Approximation of the JS `String(value)` coercion used by the source's
catch-all fallback.  No theorem below relies on its precise text. -/
def jsToString (heap : Heap) (v : JSVal) : String :=
  match v with
  | .prim (.str s) => s
  | .prim (.num n) => toString n
  | .prim (.boolV b) => if b then "true" else "false"
  | .prim .null => "null"
  | .prim .undefV => "undefined"
  | .ref a =>
    match heap.get? a with
    | some (.arr _) => ""
    | _ => "[object Object]"

/-- `InMemoryCoreLogger.safeSerialize`: run the recursive serializer and,
on internal failure (modelled by fuel exhaustion), fall back to the textual
stand-in — the source's `try { return serializer(value) } catch { return
String(value) }`. -/
def safeSerialize (heap : Heap) (v : JSVal) : JOut :=
  match serializeVal heap (fuelBound heap) [] v with
  | some (o, _) => o
  | none => .str (jsToString heap v)

/-- `LogLevel` enum from `enums.ts`. -/
inductive LogLevel where
  | trace | debug | info | success | warn | error | fatal
  deriving DecidableEq, Repr

/-- String value of a `LogLevel` (the enum's string representation). -/
def LogLevel.toStr : LogLevel → String
  | .trace => "trace"
  | .debug => "debug"
  | .info => "info"
  | .success => "success"
  | .warn => "warn"
  | .error => "error"
  | .fatal => "fatal"

/-- A request-like object nested in an event (fields `url`/`method`;
`none` models an absent/undefined field). -/
structure ReqLike where
  url : Option String
  method : Option String
  deriving DecidableEq, Repr

/-- The `string | Event` union accepted in place of a message.
`errorEvent` models a DOM `ErrorEvent` (its `type` is also present since
`ErrorEvent <: Event`); `genericEvent` models any other `Event`.  `target`
carries `target.constructor.name` when a target object is present.
`error` is the `ErrorEvent.error` value (any JS value, possibly absent). -/
inductive RawInput where
  | strMsg (s : String)
  | errorEvent (type_ message filename : String) (lineno colno : Nat)
      (error : Option JSVal)
  | genericEvent (type_ : String) (target : Option String) (timeStamp : Nat)
      (request : Option ReqLike)
  deriving DecidableEq, Repr

/-- The `data` slot of a stored `ILogEntry`.  `fields` is the fresh object
literal built by `extractEventData`; `json` is an already-JSON-safe tree
(the serializer's output, or a tree obtained by `JSON.parse` during
storage hydration — parsed JSON is acyclic and plain, so serializing it
again reproduces the same tree). -/
inductive EntryData where
  | fields (fs : List (String × JSVal))
  | json (j : JOut)

/-- JS truthiness of a JSON-safe tree (objects/arrays are truthy). -/
def JOut.truthy : JOut → Bool
  | .str s => s ≠ ""
  | .num n => n ≠ 0
  | .boolV b => b
  | .null => false
  | .undefV => false
  | _ => true

/-- Truthiness of an entry's `data` value (`entry.data ? … : undefined`).
A `fields` value is a freshly built object literal, hence truthy. -/
def EntryData.truthy : EntryData → Bool
  | .fields _ => true
  | .json j => j.truthy

/-- Serialize an entry's `data` through `safeSerialize`.  A `fields` value
is a fresh object not referenced from the heap, so the serializer visits it
first (it can never be re-encountered) and then serializes its field values
threading one shared visited set; a `json` tree is already JSON-safe and
serializes to itself. -/
def EntryData.serialize (heap : Heap) : EntryData → JOut
  | .fields fs =>
      match serializeFields heap (fuelBound heap) [] fs with
      | some (outs, _) => .obj outs
      | none => .str "[object Object]"
  | .json j => j

/-- `ILogEntry` from `interfaces/ILogEntry.ts`.  Timestamps are carried in
their ISO-8601 textual form. -/
structure ILogEntry where
  timestamp : String
  level : LogLevel
  message : String
  data : Option EntryData
  source : Option String

/-- `InMemoryCoreLogger.extractMessage`. -/
def extractMessage : RawInput → String
  | .strMsg s => s
  | .errorEvent _ message filename lineno _ _ =>
      message ++ " (" ++ filename ++ ":" ++ toString lineno ++ ")"
  | .genericEvent type_ target _ _ =>
      type_ ++ " event on " ++
        (match target with
         | some n => if n = "" then "unknown target" else n
         | none => "unknown target")

/-- The `error?.stack || error` field of the error-event extraction:
if `error` is an Error object its (truthy) stack string is used, otherwise
the error value itself; an absent error stays absent (undefined). -/
def errorStackOrSelf (heap : Heap) : Option JSVal → JSVal
  | none => .prim .undefV
  | some e =>
      match e with
      | .ref a =>
          match heap.get? a with
          | some (.errObj _ _ stack) =>
              if stack = "" then e else .prim (.str stack)
          | _ => e
      | _ => e

/-- The event-extracted base `eventData` object, before the
caller-supplied data is merged (the body of `extractEventData` up to the
`additionalData` handling).  For a plain string the object stays `{}`. -/
def eventBaseFields (heap : Heap) : RawInput → List (String × JSVal)
  | .strMsg _ => []
  | .errorEvent _ _ filename lineno colno error =>
      [("filename", .prim (.str filename)),
       ("lineno", .prim (.num lineno)),
       ("colno", .prim (.num colno)),
       ("error", errorStackOrSelf heap error)]
  | .genericEvent type_ target timeStamp request =>
      [("type", .prim (.str type_)),
       ("target", match target with
                  | some n => .prim (.str n)
                  | none => .prim .undefV),
       ("timeStamp", .prim (.num timeStamp))] ++
      (match request with
       | some req =>
           if req.url ≠ none ∨ req.method ≠ none then
             [("url", match req.url with
                      | some u => .prim (.str u)
                      | none => .prim .undefV),
              ("method", match req.method with
                         | some m => .prim (.str m)
                         | none => .prim .undefV)]
           else []
       | none => [])

/-- Own enumerable string-keyed fields of a heap object, as produced by an
object-literal spread `{...v}`: plain objects contribute their fields,
arrays contribute index keys; Date/RegExp/Map/Set/Error objects have no
own enumerable string keys. -/
def spreadFields (heap : Heap) (a : Nat) : List (String × JSVal) :=
  match heap.get? a with
  | some (.obj fs) => fs
  | some (.arr es) => (es.enum).map (fun p => (toString p.1, p.2))
  | _ => []

/-- Object-literal spread merge `{ ...base, ...extra }`: base keys keep
their position but `extra` values win on collision; new `extra` keys are
appended in order. -/
def jsSpread (base extra : List (String × JSVal)) : List (String × JSVal) :=
  base.map (fun kv => (kv.1, ((extra.lookup kv.1).getD kv.2))) ++
    extra.filter (fun kv => !(base.any (fun b => b.1 == kv.1)))

/-- `InMemoryCoreLogger.extractEventData`.  `additionalData = none` models
an absent (undefined) argument; the source's `additionalData !== undefined`
guard likewise skips an explicitly-undefined argument. -/
def extractEventData (heap : Heap) (messageOrEvent : RawInput)
    (additionalData : Option JSVal) : Option (List (String × JSVal)) :=
  let eventData := eventBaseFields heap messageOrEvent
  let eventData1 :=
    match additionalData with
    | none => eventData
    | some (.prim .undefV) => eventData
    | some (.ref a) => jsSpread eventData (spreadFields heap a)
    | some v => eventData ++ [("additionalData", v)]
  if eventData1.length > 0 then some eventData1 else none

/-- `InMemoryCoreLogger` state: the stored entries and the capacity. -/
structure InMemoryCoreLogger where
  logs : List ILogEntry
  maxLogs : Nat

/-- JS `arr.slice(-n)`: for `n = 0` the start index is `-0 = 0`, so the
WHOLE array is returned; for `n ≥ 1` the last `n` elements (all of them
when `n ≥ length`). -/
def jsSliceLast (n : Nat) (xs : List α) : List α :=
  if n = 0 then xs else xs.drop (xs.length - n)

/-- The entry as `addEntry` stores it: data passed through the serializer
when truthy, dropped (`undefined`) otherwise. -/
def storedOf (heap : Heap) (e : ILogEntry) : ILogEntry :=
  { e with data :=
      match e.data with
      | some d => if d.truthy then some (.json (d.serialize heap)) else none
      | none => none }

namespace InMemoryCoreLogger

/-- `InMemoryCoreLogger.setMaxLogs`: update the capacity only; no trim. -/
def setMaxLogs (max : Nat) (st : InMemoryCoreLogger) : InMemoryCoreLogger :=
  { st with maxLogs := max }

/-- `InMemoryCoreLogger.addEntry`: serialize the data, push, then if the
length exceeds `maxLogs` keep `logs.slice(-maxLogs)`. -/
def addEntry (heap : Heap) (st : InMemoryCoreLogger) (e : ILogEntry) :
    InMemoryCoreLogger :=
  let logs1 := st.logs ++ [storedOf heap e]
  { st with logs := if logs1.length > st.maxLogs then jsSliceLast st.maxLogs logs1 else logs1 }

/-- `InMemoryCoreLogger.getLogs`: all entries, or only those of the given
level, in insertion order (shallow copies in the source). -/
def getLogs (st : InMemoryCoreLogger) (level : Option LogLevel) : List ILogEntry :=
  match level with
  | some l => st.logs.filter (fun e => e.level == l)
  | none => st.logs

instance : BEq LogLevel := ⟨fun a b => decide (a = b)⟩

/-- `InMemoryCoreLogger.clearLogs`: drop all records, keep the capacity. -/
def clearLogs (st : InMemoryCoreLogger) : InMemoryCoreLogger :=
  { st with logs := [] }

/-- `InMemoryCoreLogger.log`: build the entry from the raw input and add it
(the surrounding try/catch cannot fire in the pure model). -/
def log (heap : Heap) (ts : String) (st : InMemoryCoreLogger)
    (level : LogLevel) (messageOrEvent : RawInput) (data : Option JSVal)
    (source : Option String) : InMemoryCoreLogger :=
  addEntry heap st
    { timestamp := ts
      level := level
      message := extractMessage messageOrEvent
      data := (extractEventData heap messageOrEvent data).map .fields
      source := source }

/-- Fold a sequence of `addEntry` calls. -/
def insertAll (heap : Heap) (st : InMemoryCoreLogger) (es : List ILogEntry) :
    InMemoryCoreLogger :=
  es.foldl (addEntry heap) st

end InMemoryCoreLogger

/-- Console channels of the leveled console facility. -/
inductive ConsoleChannel where
  | errorCh | warnCh | infoCh | logCh | debugCh | traceCh
  deriving DecidableEq, Repr

namespace ConsoleCoreLogger

/-- The `message` variable of `ConsoleCoreLogger.log`: the string itself,
or `"<type> event"` for any event-shaped input (an `ErrorEvent`'s `type`
is its inherited `Event.type`). -/
def message : RawInput → String
  | .strMsg s => s
  | .errorEvent type_ _ _ _ _ _ => type_ ++ " event"
  | .genericEvent type_ _ _ _ => type_ ++ " event"

/-- `ConsoleCoreLogger.log`, as the list of (channel, text) prints it
makes.  `ts` is `new Date().toISOString()`.  The model assumes
`console.info`/`console.debug`/`console.trace` exist (as in the tested
environments); note the source prints INFO to both `info` and `log`, and
appends a source line only for a truthy source. -/
def log (ts : String) (level : LogLevel) (messageOrEvent : RawInput)
    (_data : Option JSVal) (source : Option String) :
    List (ConsoleChannel × String) :=
  let combined := "[" ++ ts ++ "] [" ++ (LogLevel.toStr level).toUpper ++ "] "
      ++ message messageOrEvent
  let main : List (ConsoleChannel × String) :=
    match level with
    | .error => [(.errorCh, combined)]
    | .warn => [(.warnCh, combined)]
    | .success => [(.logCh, "%c" ++ combined)]
    | .info => [(.infoCh, combined), (.logCh, combined)]
    | .debug => [(.debugCh, combined)]
    | .trace => [(.traceCh, combined)]
    | .fatal => [(.logCh, combined)]
  main ++
    (match source with
     | some s => if s = "" then [] else [(.logCh, "  Source: " ++ s)]
     | none => [])

end ConsoleCoreLogger

/-- The shape persisted by `LocalStorageCoreLogger` (one element of the
JSON array stored under the storage key). -/
structure PersistedEntry where
  timestamp : String
  level : LogLevel
  message : String
  data : Option JOut
  source : Option String

/-- The localStorage collaborator, modelled at the granularity the sink
uses it: each key holds a parsed JSON array of persisted entries. -/
abbrev LocalStore := List (String × List PersistedEntry)

/-- `localStorage.getItem` + `JSON.parse` (a missing key yields `[]`). -/
def storeGet (key : String) : LocalStore → Option (List PersistedEntry)
  | [] => none
  | (k, v) :: rest => if k = key then some v else storeGet key rest

/-- `localStorage.setItem` (overwrite or append). -/
def storeSet (key : String) (v : List PersistedEntry) : LocalStore → LocalStore
  | [] => [(key, v)]
  | (k, w) :: rest =>
      if k = key then (key, v) :: rest else (k, w) :: storeSet key v rest

/-- `localStorage.removeItem`. -/
def storeRemove (key : String) : LocalStore → LocalStore
  | [] => []
  | (k, v) :: rest =>
      if k = key then storeRemove key rest else (k, v) :: storeRemove key rest

namespace LocalStorageCoreLogger

/-- The persisted message: the string itself or `"<type> event"`. -/
def message : RawInput → String
  | .strMsg s => s
  | .errorEvent type_ _ _ _ _ _ => type_ ++ " event"
  | .genericEvent type_ _ _ _ => type_ ++ " event"

/-- `LocalStorageCoreLogger.log`: read the existing array under the key,
append the new entry (caller `data` serialized when truthy, `undefined`
otherwise), keep only the last `maxStored` entries, write back.  The
surrounding try/catch cannot fire in the pure model. -/
def log (heap : Heap) (ts : String) (storageKey : String) (maxStored : Nat)
    (store : LocalStore) (level : LogLevel) (messageOrEvent : RawInput)
    (data : Option JSVal) (source : Option String) : LocalStore :=
  let arr := (storeGet storageKey store).getD []
  let entry : PersistedEntry :=
    { timestamp := ts
      level := level
      message := message messageOrEvent
      data := match data with
              | some d => if jsTruthy d then some (safeSerialize heap d) else none
              | none => none
      source := source }
  storeSet storageKey (jsSliceLast maxStored (arr ++ [entry])) store

end LocalStorageCoreLogger

/-- A registered core logger, identified the way JS object identity
distinguishes them: each `initialize` run constructs one fresh console
core and one fresh localStorage core, and caller-supplied custom cores are
identified by an id. -/
inductive CoreLogger where
  | consoleCore
  | localStorageCore (storageKey : String)
  | customCore (id : Nat)
  deriving DecidableEq, Repr

/-- The argument tuple a core logger's `log` receives. -/
structure CallArgs where
  level : LogLevel
  messageOrEvent : RawInput
  data : Option JSVal
  source : Option String

/-- `ILoggingConfigurationOptions` (absent field = not supplied). -/
structure ILoggingConfigurationOptions where
  applicationName : Option String := none
  enableConsoleCore : Option Bool := none
  enableLocalStorageCore : Option Bool := none
  customCoreLoggers : Option (List Nat) := none
  maxLogs : Option Nat := none

/-- Mutable singleton state of `LoggingService` (instance fields plus the
static core-logger list and the ambient localStorage). -/
structure ServiceState where
  maxLogs : Nat
  applicationName : String
  activeCoreLoggers : List CoreLogger
  inMemoryLogger : Option InMemoryCoreLogger
  storage : LocalStore

namespace LoggingService

/-- `LoggingService.setCoreLogger`: register unless already present
(duplicate identity is a no-op). -/
def setCoreLogger (core : CoreLogger) (cores : List CoreLogger) : List CoreLogger :=
  if core ∈ cores then cores else cores ++ [core]

/-- The core-logger list `initialize` rebuilds from scratch for resolved
application name `appName`: console core when enabled (default true),
localStorage core when enabled (default true), then the custom cores with
duplicate registration ignored. -/
def buildCores (options : ILoggingConfigurationOptions) (appName : String) :
    List CoreLogger :=
  let cores0 : List CoreLogger := []
  let cores1 := if options.enableConsoleCore.getD true
    then setCoreLogger .consoleCore cores0 else cores0
  let cores2 := if options.enableLocalStorageCore.getD true
    then setCoreLogger (.localStorageCore (appName ++ "-logs")) cores1 else cores1
  match options.customCoreLoggers with
  | some ids => ids.foldl (fun acc id => setCoreLogger (.customCore id) acc) cores2
  | none => cores2

/-- Rebuild an `ILogEntry` from a persisted record during hydration
(`{...log, timestamp: new Date(log.timestamp)}`). -/
def entryOfPersisted (pe : PersistedEntry) : ILogEntry :=
  { timestamp := pe.timestamp
    level := pe.level
    message := pe.message
    data := pe.data.map .json
    source := pe.source }

/-- The application name after a configure call: updated only by a truthy
(non-empty) supplied name, otherwise retained
(`if (options?.applicationName) instance.applicationName = ...`). -/
def resolveAppName (o : Option String) (prev : String) : String :=
  match o with
  | some a => if a = "" then prev else a
  | none => prev

/-- The in-memory logger before hydration: the existing one is preserved
(its capacity updated when `maxLogs` is supplied), otherwise a fresh
`InMemoryCoreLogger(options?.maxLogs ?? instance.maxLogs)` is created. -/
def baseInMemory (options : ILoggingConfigurationOptions) (st : ServiceState)
    (maxL : Nat) : InMemoryCoreLogger :=
  match st.inMemoryLogger with
  | some im =>
      match options.maxLogs with
      | some ml => im.setMaxLogs ml
      | none => im
  | none => { logs := [], maxLogs := options.maxLogs.getD maxL }

/-- Hydration: if localStorage holds previously saved records under the
storage key, insert each of them (oldest first) via `addEntry`. -/
def hydrate (heap : Heap) (key : String) (store : LocalStore)
    (im : InMemoryCoreLogger) : InMemoryCoreLogger :=
  match storeGet key store with
  | some stored =>
      stored.foldl (fun b pe => b.addEntry heap (entryOfPersisted pe)) im
  | none => im

/--
The `LoggingService` static configure entry point (named `initialize` in
the source; renamed here).  In order, as in the source:
update `applicationName` when a truthy (non-empty) name is supplied;
update `maxLogs` when supplied; reset the core-logger list; keep the
existing in-memory logger (updating its capacity when `maxLogs` is
supplied) or construct a fresh one; hydrate the in-memory logger from the
localStorage entry under `"<applicationName>-logs"`; then register the
console, localStorage and custom cores.

The model covers the states reachable after first `getInstance()` (where
an in-memory logger always exists) plus the fresh-construction branch; the
branch adopting a caller-supplied advanced in-memory logger (taken only
when no in-memory logger exists yet AND such a custom is supplied) is not
modelled, since modelled custom cores are plain `ICoreLogger`s.
-/
def configure (heap : Heap) (options : ILoggingConfigurationOptions)
    (st : ServiceState) : ServiceState :=
  let appName := resolveAppName options.applicationName st.applicationName
  let maxL := options.maxLogs.getD st.maxLogs
  { maxLogs := maxL
    applicationName := appName
    activeCoreLoggers := buildCores options appName
    inMemoryLogger :=
      some (hydrate heap (appName ++ "-logs") st.storage (baseInMemory options st maxL))
    storage := st.storage }

/-- Result of one `broadcast` call: the updated state, the calls delivered
to the registered core loggers (in registration order, each with the
arguments it received), the warnings written to the diagnostic console, and
how many times `determineSource()` was invoked. -/
structure BroadcastResult where
  state : ServiceState
  invocations : List (CoreLogger × CallArgs)
  diagnostics : List String
  deriveCount : Nat

/-- Per-core step of the broadcast loop: invoke the core logger (its
behavior, including whether it throws, is given by the environment
`runCore`), catching any error as a diagnostic warning and continuing. -/
def broadcastStep (runCore : CoreLogger → CallArgs → Except String Unit)
    (args : CallArgs)
    (acc : List (CoreLogger × CallArgs) × List String) (core : CoreLogger) :
    List (CoreLogger × CallArgs) × List String :=
  match runCore core args with
  | .ok _ => (acc.1 ++ [(core, args)], acc.2)
  | .error e => (acc.1 ++ [(core, args)], acc.2 ++ ["Core logger threw an error: " ++ e])

/--
`LoggingService.broadcast`.  `derived` is the value `determineSource()`
would return (it inspects the JS call stack, an environment input);
`inMemThrows` models the possibility that the in-memory logger's `log`
call throws (caught by the source's try/catch).  `resolvedSource` is the
JS `source || this.determineSource()`: the derived source is used when the
caller-supplied source is absent or the empty string.  The resolved source
goes only to the in-memory logger; registered cores receive the original
`source` argument.
-/
def broadcast (heap : Heap) (runCore : CoreLogger → CallArgs → Except String Unit)
    (derived : String) (ts : String) (inMemThrows : Bool)
    (st : ServiceState) (level : LogLevel) (messageOrEvent : RawInput)
    (data : Option JSVal) (source : Option String) : BroadcastResult :=
  let resolved : String × Nat :=
    match source with
    | some s => if s = "" then (derived, 1) else (s, 0)
    | none => (derived, 1)
  let st1 : ServiceState :=
    match st.inMemoryLogger with
    | some im =>
        if inMemThrows then st
        else
          let im1 := im.log heap ts level messageOrEvent data (some resolved.1)
          { st with inMemoryLogger := some im1 }
    | none => st
  let args : CallArgs :=
    { level := level, messageOrEvent := messageOrEvent, data := data, source := source }
  let folded := st.activeCoreLoggers.foldl (broadcastStep runCore args) ([], [])
  { state := st1
    invocations := folded.1
    diagnostics := (if inMemThrows && st.inMemoryLogger.isSome
                    then ["In-memory logger threw an error:"] else []) ++ folded.2
    deriveCount := resolved.2 }

/-- `LoggingService.clearLogs`: clear the in-memory logger (when present)
and unconditionally remove the persisted storage key. -/
def clearLogs (st : ServiceState) : ServiceState :=
  { st with
      inMemoryLogger := st.inMemoryLogger.map InMemoryCoreLogger.clearLogs
      storage := storeRemove (st.applicationName ++ "-logs") st.storage }

end LoggingService

/-! ### Helper lemmas about list suffixes and the buffer -/

/-- The last `n` elements of a list (all of them when `n ≥ length`). -/
def lastN (n : Nat) (xs : List α) : List α :=
  xs.drop (xs.length - n)

theorem lastN_of_le {n : Nat} {xs : List α} (h : xs.length ≤ n) :
    lastN n xs = xs := by
  unfold lastN
  rw [Nat.sub_eq_zero_of_le h, List.drop_zero]

theorem length_lastN (n : Nat) (xs : List α) :
    (lastN n xs).length = xs.length - (xs.length - n) := by
  unfold lastN
  rw [List.length_drop]

theorem lastN_lastN_append (m : Nat) (xs ys : List α) :
    lastN m (lastN m xs ++ ys) = lastN m (xs ++ ys) := by
  unfold lastN
  rw [show xs.drop (xs.length - m) ++ ys = (xs ++ ys).drop (xs.length - m) from
        (List.drop_append_of_le_length (Nat.sub_le _ _)).symm,
      List.drop_drop]
  congr 1
  simp only [List.length_drop, List.length_append]
  omega

theorem lastN_append_singleton {n : Nat} (hn : 1 ≤ n) (xs : List α) (a : α) :
    lastN n (xs ++ [a]) = xs.drop ((xs.length + 1) - n) ++ [a] := by
  unfold lastN
  rw [List.length_append]
  exact List.drop_append_of_le_length (by simp; omega)

namespace InMemoryCoreLogger

theorem addEntry_maxLogs (heap : Heap) (st : InMemoryCoreLogger) (e : ILogEntry) :
    (st.addEntry heap e).maxLogs = st.maxLogs := rfl

theorem setMaxLogs_maxLogs (n : Nat) (st : InMemoryCoreLogger) :
    (st.setMaxLogs n).maxLogs = n := rfl

theorem setMaxLogs_logs (n : Nat) (st : InMemoryCoreLogger) :
    (st.setMaxLogs n).logs = st.logs := rfl

theorem mk_maxLogs (logs : List ILogEntry) (m : Nat) :
    (InMemoryCoreLogger.mk logs m).maxLogs = m := rfl

/-- With a positive capacity, one insertion always leaves exactly the last
`maxLogs` elements of "old contents + new stored entry". -/
theorem addEntry_logs_eq (heap : Heap) (st : InMemoryCoreLogger) (e : ILogEntry)
    (h : 1 ≤ st.maxLogs) :
    (st.addEntry heap e).logs = lastN st.maxLogs (st.logs ++ [storedOf heap e]) := by
  unfold addEntry jsSliceLast
  by_cases hlen : (st.logs ++ [storedOf heap e]).length > st.maxLogs
  · have h0 : st.maxLogs ≠ 0 := by omega
    simp only [hlen, if_true, h0, if_false, lastN]
  · simp only [hlen, if_false]
    exact (lastN_of_le (Nat.le_of_not_lt hlen)).symm

theorem insertAll_maxLogs (heap : Heap) (es : List ILogEntry) (st : InMemoryCoreLogger) :
    (st.insertAll heap es).maxLogs = st.maxLogs := by
  induction es generalizing st with
  | nil => rfl
  | cons e rest ih => exact ih (st.addEntry heap e)

/-- With a positive capacity, a nonempty insertion sequence leaves exactly
the last `maxLogs` elements of "old contents + the stored entries". -/
theorem insertAll_logs_eq (heap : Heap) (es : List ILogEntry)
    (st : InMemoryCoreLogger) (h1 : 1 ≤ st.maxLogs) (hne : es ≠ []) :
    (st.insertAll heap es).logs
      = lastN st.maxLogs (st.logs ++ es.map (storedOf heap)) := by
  induction es generalizing st with
  | nil => exact absurd rfl hne
  | cons e rest ih =>
    match rest, ih with
    | [], _ =>
        simpa [insertAll] using addEntry_logs_eq heap st e h1
    | r :: rs, ih =>
        have hstep : st.insertAll heap (e :: r :: rs)
            = (st.addEntry heap e).insertAll heap (r :: rs) := rfl
        rw [hstep, ih (st.addEntry heap e)
              (by rw [addEntry_maxLogs]; exact h1) (by simp),
            addEntry_maxLogs, addEntry_logs_eq heap st e h1,
            lastN_lastN_append]
        simp

end InMemoryCoreLogger

/-! ### Claim C2 -/

/-- A concrete entry used in counterexamples/witnesses. -/
def entryA : ILogEntry :=
  { timestamp := "2023-01-01T00:00:00.000Z", level := .info,
    message := "m0", data := none, source := none }

def entryB : ILogEntry :=
  { timestamp := "2023-01-01T00:00:01.000Z", level := .warn,
    message := "m1", data := none, source := none }

def entryC : ILogEntry :=
  { timestamp := "2023-01-01T00:00:02.000Z", level := .error,
    message := "m2", data := none, source := none }

/--
Counterexample to C2 as stated: with `maxSize = 0` the eviction code
`logs.slice(-maxLogs)` computes `slice(-0) = slice(0)`, which returns the
whole array, so inserting one record into an empty zero-capacity buffer
leaves 1 record and violates `length ≤ maxSize`.
-/
theorem C2_zero_capacity_cex :
    (InMemoryCoreLogger.addEntry [] ⟨[], 0⟩ entryA).logs.length = 1 ∧
    ¬ ((InMemoryCoreLogger.addEntry [] ⟨[], 0⟩ entryA).logs.length
        ≤ (InMemoryCoreLogger.mk [] 0).maxLogs) := by
  constructor
  · rfl
  · decide

/--
C2 (amended: for positive capacity `maxSize ≥ 1`): for every sequence of
inserts into an initially empty buffer whose count exceeds the capacity,
the buffer afterwards holds exactly the `maxSize` most recently inserted
records (as stored, i.e. with their data serialized) in insertion order,
and `length ≤ maxSize` holds after every insertion.
-/
theorem C2_buffer_rotation (heap : Heap) (m : Nat) (es : List ILogEntry)
    (h1 : 1 ≤ m) (hgt : m < es.length) :
    (InMemoryCoreLogger.insertAll heap ⟨[], m⟩ es).logs
        = (es.map (storedOf heap)).drop (es.length - m) ∧
    ∀ i : Nat,
      ((InMemoryCoreLogger.insertAll heap ⟨[], m⟩ (es.take i)).logs).length ≤ m := by
  constructor
  · have hne : es ≠ [] := by
      intro h
      rw [h] at hgt
      simp at hgt
    rw [InMemoryCoreLogger.insertAll_logs_eq heap es ⟨[], m⟩ h1 hne]
    unfold lastN
    simp
  · intro i
    by_cases hes : es.take i = []
    · rw [hes]
      show (List.length [] ≤ m)
      simp
    · rw [InMemoryCoreLogger.insertAll_logs_eq heap (es.take i) ⟨[], m⟩ h1 hes]
      rw [show (InMemoryCoreLogger.mk [] m).logs = [] from rfl, List.nil_append,
          length_lastN, InMemoryCoreLogger.mk_maxLogs]
      omega

/-- Witness for C2 at capacity 2 and three concrete inserts. -/
theorem C2_buffer_rotation_witness :
    (1 ≤ 2) ∧ (2 < [entryA, entryB, entryC].length) ∧
    (InMemoryCoreLogger.insertAll [] ⟨[], 2⟩ [entryA, entryB, entryC]).logs
        = ([entryA, entryB, entryC].map (storedOf [])).drop
            ([entryA, entryB, entryC].length - 2) :=
  ⟨by decide, by decide,
   (C2_buffer_rotation [] 2 [entryA, entryB, entryC] (by decide) (by decide)).1⟩

/-! ### Claim C3 -/

/--
Counterexample to C3 as stated: with new capacity `n = 0` (which is
`< L = 1`), the insert after `setMaxLogs 0` leaves 2 records, not 0,
because `slice(-0)` returns the whole array.
-/
theorem C3_zero_capacity_cex :
    ((InMemoryCoreLogger.mk [storedOf [] entryA] 5).logs.length = 1) ∧
    (((InMemoryCoreLogger.setMaxLogs 0
        (InMemoryCoreLogger.mk [storedOf [] entryA] 5)).addEntry [] entryB).logs.length
      = 2) := by
  constructor
  · rfl
  · rfl

/--
C3 (amended: for new capacity `1 ≤ n < L`): `setCapacity n` (`setMaxLogs`)
leaves the buffer contents unchanged, and the next single insert leaves
exactly `n` records, the last of which is the just-inserted (stored)
record.
-/
theorem C3_lazy_trim (heap : Heap) (st : InMemoryCoreLogger) (n : Nat)
    (e : ILogEntry) (h1 : 1 ≤ n) (hlt : n < st.logs.length) :
    (st.setMaxLogs n).logs = st.logs ∧
    ((st.setMaxLogs n).addEntry heap e).logs
      = st.logs.drop ((st.logs.length + 1) - n) ++ [storedOf heap e] ∧
    ((st.setMaxLogs n).addEntry heap e).logs.length = n := by
  refine ⟨rfl, ?_, ?_⟩
  · rw [InMemoryCoreLogger.addEntry_logs_eq heap (st.setMaxLogs n) e
          (by rw [InMemoryCoreLogger.setMaxLogs_maxLogs]; exact h1)]
    rw [InMemoryCoreLogger.setMaxLogs_maxLogs, InMemoryCoreLogger.setMaxLogs_logs]
    exact lastN_append_singleton h1 _ _
  · rw [InMemoryCoreLogger.addEntry_logs_eq heap (st.setMaxLogs n) e
          (by rw [InMemoryCoreLogger.setMaxLogs_maxLogs]; exact h1),
        length_lastN]
    simp only [InMemoryCoreLogger.setMaxLogs_maxLogs,
      InMemoryCoreLogger.setMaxLogs_logs, List.length_append,
      List.length_cons, List.length_nil]
    omega

/-- Witness for C3 at a 2-record buffer shrunk to capacity 1. -/
theorem C3_lazy_trim_witness :
    (1 ≤ 1) ∧
    (1 < (InMemoryCoreLogger.mk [storedOf [] entryA, storedOf [] entryB] 5).logs.length) ∧
    ((InMemoryCoreLogger.setMaxLogs 1
        (InMemoryCoreLogger.mk [storedOf [] entryA, storedOf [] entryB] 5)).addEntry
          [] entryC).logs.length = 1 :=
  ⟨by decide, by decide,
   (C3_lazy_trim [] (InMemoryCoreLogger.mk [storedOf [] entryA, storedOf [] entryB] 5)
      1 entryC (by decide) (by decide)).2.2⟩

/-! ### Claim C4 -/

/-- The circular structure from the test suite: `{name: 'parent', self: <itself>}`. -/
def cycleHeap : Heap :=
  [.obj [("name", .prim (.str "parent")), ("self", .ref 0)]]

/-- An acyclic heap with sharing: address 1 is `{a: s, b: s}` where
`s = {x: 1}` (address 0) is reachable through two distinct paths but is
not its own ancestor. -/
def sharedHeap : Heap :=
  [.obj [("x", .prim (.num 1))], .obj [("a", .ref 0), ("b", .ref 0)]]

/--
Counterexample to C4 as stated: the `seen` set is a `WeakSet` that is
never pruned when the recursion leaves an object, so a shared, non-cyclic
subobject (here `{x: 1}`, reachable as both `a` and `b` and containing no
references at all, hence not its own ancestor) is serialized in full only
at its first occurrence and replaced by `"[Circular]"` at the second —
contradicting "serialized in full at every occurrence, never replaced".
-/
theorem C4_shared_subobject_cex :
    sharedHeap.get? 0 = some (.obj [("x", .prim (.num 1))]) ∧
    safeSerialize sharedHeap (.ref 1)
      = .obj [("a", .obj [("x", .num 1)]), ("b", .str "[Circular]")] ∧
    ¬ (safeSerialize sharedHeap (.ref 1)
        = .obj [("a", .obj [("x", .num 1)]), ("b", .obj [("x", .num 1)])]) := by
  have hval : safeSerialize sharedHeap (.ref 1)
      = .obj [("a", .obj [("x", .num 1)]), ("b", .str "[Circular]")] := by
    simp [safeSerialize, serializeVal, serializeFields, fuelBound, nodeWeight,
      sharedHeap, JOut.ofPrim]
  refine ⟨rfl, hval, ?_⟩
  intro hEq
  rw [hval] at hEq
  simp at hEq

/--
C4 (amended): serialization is total — internal failure falls back to a
textual stand-in, never an exception — and the `"[Circular]"` marker is
substituted for any plain object or array whose identity is already in the
traversal's visited set; since that set is never pruned on leaving an
object, this covers both true cycles (the marker appears at the cycle
point, as in the concrete self-referential structure below) and repeated
occurrences of a shared acyclic subobject (serialized in full at the first
occurrence, `"[Circular]"` afterwards, as in `sharedHeap`).
-/
theorem C4_circular_marker :
    (∀ (heap : Heap) (fuel : Nat) (seen : List Nat) (a : Nat)
        (fs : List (String × JSVal)),
        heap.get? a = some (.obj fs) → a ∈ seen →
        serializeVal heap (fuel + 1) seen (.ref a)
          = some (.str "[Circular]", seen)) ∧
    (∀ (heap : Heap) (fuel : Nat) (seen : List Nat) (a : Nat)
        (es : List JSVal),
        heap.get? a = some (.arr es) → a ∈ seen →
        serializeVal heap (fuel + 1) seen (.ref a)
          = some (.str "[Circular]", seen)) ∧
    safeSerialize cycleHeap (.ref 0)
      = .obj [("name", .str "parent"), ("self", .str "[Circular]")] ∧
    safeSerialize sharedHeap (.ref 1)
      = .obj [("a", .obj [("x", .num 1)]), ("b", .str "[Circular]")] := by
  refine ⟨?_, ?_, ?_, ?_⟩
  · intro heap fuel seen a fs hget hmem
    rw [List.get?_eq_getElem?] at hget
    simp [serializeVal, hget, hmem]
  · intro heap fuel seen a es hget hmem
    rw [List.get?_eq_getElem?] at hget
    simp [serializeVal, hget, hmem]
  · simp [safeSerialize, serializeVal, serializeFields, fuelBound, nodeWeight,
      cycleHeap, JOut.ofPrim]
  · simp [safeSerialize, serializeVal, serializeFields, fuelBound, nodeWeight,
      sharedHeap, JOut.ofPrim]

/-- Witness for C4: the already-visited-object clause at a concrete heap,
visited set and address. -/
theorem C4_circular_marker_witness :
    ([JSNode.obj [("k", .prim .null)]].get? 0 = some (.obj [("k", .prim .null)])) ∧
    (0 ∈ [0]) ∧
    serializeVal [JSNode.obj [("k", .prim .null)]] 1 [0] (.ref 0)
      = some (.str "[Circular]", [0]) :=
  ⟨rfl, by decide,
   C4_circular_marker.1 [JSNode.obj [("k", .prim .null)]] 0 [0] 0
     [("k", .prim .null)] rfl (by decide)⟩

/-! ### Lookup lemmas for the spread merge (claim C5) -/

theorem lookup_append {β : Type} (l1 l2 : List (String × β)) (k : String) :
    (l1 ++ l2).lookup k = (l1.lookup k).orElse (fun _ => l2.lookup k) := by
  induction l1 with
  | nil => simp [List.lookup]
  | cons kv t ih =>
    obtain ⟨k0, v0⟩ := kv
    by_cases h : k = k0
    · subst h
      simp [List.lookup]
    · have hb : (k == k0) = false := by simp [h]
      simp [List.lookup, hb, ih]

theorem lookup_map_keyfun {β : Type} (f : String → β → β)
    (l : List (String × β)) (k : String) :
    (l.map (fun kv => (kv.1, f kv.1 kv.2))).lookup k = (l.lookup k).map (f k) := by
  induction l with
  | nil => simp [List.lookup]
  | cons kv t ih =>
    obtain ⟨k0, v0⟩ := kv
    by_cases h : k = k0
    · subst h
      simp [List.lookup]
    · have hb : (k == k0) = false := by simp [h]
      simp [List.lookup, hb, ih]

theorem any_key_eq_false_of_lookup_none {β : Type} {l : List (String × β)}
    {k : String} (h : l.lookup k = none) :
    l.any (fun kv => kv.1 == k) = false := by
  induction l with
  | nil => rfl
  | cons kv t ih =>
    obtain ⟨k0, v0⟩ := kv
    by_cases hk : k = k0
    · subst hk
      simp [List.lookup] at h
    · have hb : (k == k0) = false := by simp [hk]
      have hb' : (k0 == k) = false := by
        simp only [beq_eq_false_iff_ne, ne_eq]
        exact fun h => hk h.symm
      simp only [List.lookup, hb] at h
      simp [hb', ih h]

theorem lookup_filter_of_key_passes {β : Type} (p : String × β → Bool)
    (l : List (String × β)) (k : String) (h : ∀ v, p (k, v) = true) :
    (l.filter p).lookup k = l.lookup k := by
  induction l with
  | nil => rfl
  | cons kv t ih =>
    obtain ⟨k0, v0⟩ := kv
    by_cases hk : k = k0
    · subst hk
      have := h v0
      simp [List.filter, this, List.lookup]
    · have hb : (k == k0) = false := by simp [hk]
      by_cases hp : p (k0, v0) = true
      · simp [List.filter, hp, List.lookup, hb, ih]
      · simp only [Bool.not_eq_true] at hp
        simp [List.filter, hp, List.lookup, hb, ih]

/-- Characterization of the object-literal spread merge: on every key, the
caller-supplied (`extra`) value wins, falling back to the extracted
(`base`) value. -/
theorem lookup_jsSpread (base extra : List (String × JSVal)) (k : String) :
    (jsSpread base extra).lookup k
      = (extra.lookup k).orElse (fun _ => base.lookup k) := by
  unfold jsSpread
  rw [lookup_append, lookup_map_keyfun (fun k0 v => ((extra.lookup k0).getD v))]
  cases hbl : base.lookup k with
  | some v =>
      cases hel : extra.lookup k <;> simp [hel]
  | none =>
      have hany : base.any (fun kv => kv.1 == k) = false :=
        any_key_eq_false_of_lookup_none hbl
      rw [lookup_filter_of_key_passes]
      · cases hel : extra.lookup k <;> simp [hel]
      · intro v
        simp [hany]

/-! ### Claim C5 -/

/-- Whether a raw input is event-shaped (an `Event` instance rather than a
plain string). -/
def isEventLike : RawInput → Bool
  | .strMsg _ => false
  | _ => true

/-- For an event-shaped input, the extraction always produces at least one
field (ErrorEvents contribute filename/lineno/colno/error, generic events
contribute type/target/timeStamp). -/
theorem eventBaseFields_length_pos (heap : Heap) (input : RawInput)
    (h : isEventLike input = true) :
    0 < (eventBaseFields heap input).length := by
  cases input with
  | strMsg s => simp [isEventLike] at h
  | errorEvent ty msg fn ln cn er => simp [eventBaseFields]
  | genericEvent ty tgt tsp req => simp [eventBaseFields]

/--
C5: for every event-shaped input with extracted fields `E` and
caller-supplied data `D`:
(1) if `D` is a keyed object, the record's data is `E` shallow-merged with
    `D`'s own fields, and `D`'s value wins on every key;
(2) if `D` is a primitive (text/number/boolean) or explicitly `null`, the
    record's data is `E` extended with the single key `additionalData`
    holding `D` verbatim;
(3) if `D` is absent and the extraction produced no fields (a plain string
    input), the record's data is absent, not an empty object.
-/
theorem C5_caller_data_merge :
    (∀ (heap : Heap) (input : RawInput) (a : Nat) (fs : List (String × JSVal)),
      isEventLike input = true → heap.get? a = some (.obj fs) →
      extractEventData heap input (some (.ref a))
          = some (jsSpread (eventBaseFields heap input) fs) ∧
      ∀ k, (jsSpread (eventBaseFields heap input) fs).lookup k
            = (fs.lookup k).orElse (fun _ => (eventBaseFields heap input).lookup k)) ∧
    (∀ (heap : Heap) (input : RawInput) (p : JSPrim),
      isEventLike input = true → p ≠ .undefV →
      extractEventData heap input (some (.prim p))
          = some (eventBaseFields heap input ++ [("additionalData", .prim p)])) ∧
    (∀ (heap : Heap) (s : String),
      extractEventData heap (.strMsg s) none = none) := by
  refine ⟨?_, ?_, ?_⟩
  · intro heap input a fs hev hget
    constructor
    · have hpos : 0 < (eventBaseFields heap input).length :=
        eventBaseFields_length_pos heap input hev
      have hsf : spreadFields heap a = fs := by
        unfold spreadFields
        rw [hget]
      have hlen : 0 < (jsSpread (eventBaseFields heap input) fs).length := by
        unfold jsSpread
        rw [List.length_append, List.length_map]
        omega
      simp only [extractEventData]
      rw [hsf]
      simp [hlen]
    · intro k
      exact lookup_jsSpread _ _ k
  · intro heap input p hev hp
    have hlen : 0 < (eventBaseFields heap input ++
        [("additionalData", JSVal.prim p)]).length := by
      simp
    unfold extractEventData
    cases p with
    | undefV => exact absurd rfl hp
    | str s => simp [hlen]
    | num n => simp [hlen]
    | boolV b => simp [hlen]
    | null => simp [hlen]
  · intro heap s
    rfl

/-- Witness for C5: a click event merged with a keyed object that collides
on `type`, and with a primitive payload. -/
theorem C5_caller_data_merge_witness :
    (isEventLike (.genericEvent "click" none 0 none) = true) ∧
    ([JSNode.obj [("type", .prim (.str "mine")), ("userId", .prim (.num 123))]].get? 0
      = some (.obj [("type", .prim (.str "mine")), ("userId", .prim (.num 123))])) ∧
    extractEventData [JSNode.obj [("type", .prim (.str "mine")), ("userId", .prim (.num 123))]]
        (.genericEvent "click" none 0 none) (some (.ref 0))
      = some (jsSpread
          (eventBaseFields [JSNode.obj [("type", .prim (.str "mine")), ("userId", .prim (.num 123))]]
            (.genericEvent "click" none 0 none))
          [("type", .prim (.str "mine")), ("userId", .prim (.num 123))]) ∧
    extractEventData [] (.genericEvent "click" none 0 none) (some (.prim (.str "payload")))
      = some (eventBaseFields [] (.genericEvent "click" none 0 none)
          ++ [("additionalData", .prim (.str "payload"))]) :=
  ⟨rfl, rfl,
   (C5_caller_data_merge.1
      [JSNode.obj [("type", .prim (.str "mine")), ("userId", .prim (.num 123))]]
      (.genericEvent "click" none 0 none) 0
      [("type", .prim (.str "mine")), ("userId", .prim (.num 123))] rfl rfl).1,
   C5_caller_data_merge.2.1 [] (.genericEvent "click" none 0 none)
      (.str "payload") rfl (by intro h; cases h)⟩

/-! ### Claims C1 and C6: the broadcast loop -/

namespace LoggingService

/-- The diagnostic entries the broadcast loop produces: one caught warning
per failing core logger, in order. -/
def failureDiagnostics (runCore : CoreLogger → CallArgs → Except String Unit)
    (args : CallArgs) (cores : List CoreLogger) : List String :=
  cores.filterMap (fun c =>
    match runCore c args with
    | .ok _ => none
    | .error e => some ("Core logger threw an error: " ++ e))

theorem broadcast_foldl (runCore : CoreLogger → CallArgs → Except String Unit)
    (args : CallArgs) (cores : List CoreLogger)
    (invs : List (CoreLogger × CallArgs)) (diags : List String) :
    cores.foldl (broadcastStep runCore args) (invs, diags)
      = (invs ++ cores.map (fun c => (c, args)),
         diags ++ failureDiagnostics runCore args cores) := by
  induction cores generalizing invs diags with
  | nil => simp [failureDiagnostics]
  | cons c rest ih =>
    rw [List.foldl_cons]
    cases hc : runCore c args with
    | ok u =>
        have hstep : broadcastStep runCore args (invs, diags) c
            = (invs ++ [(c, args)], diags) := by
          unfold broadcastStep
          rw [hc]
        rw [hstep, ih]
        simp [failureDiagnostics, hc, List.filterMap_cons]
    | error e =>
        have hstep : broadcastStep runCore args (invs, diags) c
            = (invs ++ [(c, args)],
               diags ++ ["Core logger threw an error: " ++ e]) := by
          unfold broadcastStep
          rw [hc]
        rw [hstep, ih]
        simp [failureDiagnostics, hc, List.filterMap_cons]

end LoggingService

/--
C1: a broadcast is total for EVERY environment `runCore` — in particular
for environments in which any subset of the registered sinks throws, and
whether or not the canonical in-memory insert throws (`inMemThrows`).  Each
registered sink receives exactly its call, in registration order,
regardless of which sinks fail, and each failure is converted into a
caught diagnostic warning rather than propagating (the result type of
`LoggingService.broadcast` carries no exception: the per-sink `Except`
results are all consumed by the catch in `broadcastStep`).
-/
theorem C1_sink_failure_isolation (heap : Heap)
    (runCore : CoreLogger → CallArgs → Except String Unit)
    (derived ts : String) (inMemThrows : Bool) (st : ServiceState)
    (level : LogLevel) (m : RawInput) (data : Option JSVal)
    (source : Option String) :
    (LoggingService.broadcast heap runCore derived ts inMemThrows st level m data
        source).invocations
      = st.activeCoreLoggers.map (fun c =>
          (c, { level := level, messageOrEvent := m, data := data,
                source := source : CallArgs })) ∧
    (LoggingService.broadcast heap runCore derived ts inMemThrows st level m data
        source).diagnostics
      = (if inMemThrows && st.inMemoryLogger.isSome
         then ["In-memory logger threw an error:"] else [])
        ++ LoggingService.failureDiagnostics runCore
            { level := level, messageOrEvent := m, data := data, source := source }
            st.activeCoreLoggers := by
  simp only [LoggingService.broadcast, LoggingService.broadcast_foldl]
  constructor
  · simp
  · simp

/--
C6: when the caller supplies no explicit source, `determineSource()` is
consulted exactly once, the record written to the canonical in-memory
buffer carries the derived source, and every registered sink is invoked
with the original (absent) source — the derived source never reaches a
non-canonical sink.
-/
theorem C6_derived_source_only_in_buffer (heap : Heap)
    (runCore : CoreLogger → CallArgs → Except String Unit)
    (derived ts : String) (st : ServiceState) (level : LogLevel)
    (m : RawInput) (data : Option JSVal) (im : InMemoryCoreLogger)
    (him : st.inMemoryLogger = some im) :
    (LoggingService.broadcast heap runCore derived ts false st level m data
        none).deriveCount = 1 ∧
    (LoggingService.broadcast heap runCore derived ts false st level m data
        none).invocations
      = st.activeCoreLoggers.map (fun c =>
          (c, { level := level, messageOrEvent := m, data := data,
                source := none : CallArgs })) ∧
    (LoggingService.broadcast heap runCore derived ts false st level m data
        none).state.inMemoryLogger
      = some (im.addEntry heap
          { timestamp := ts, level := level, message := extractMessage m,
            data := (extractEventData heap m data).map .fields,
            source := some derived }) := by
  simp only [LoggingService.broadcast, LoggingService.broadcast_foldl, him]
  refine ⟨by trivial, by simp, ?_⟩
  simp [InMemoryCoreLogger.log]

/-- Witness for C6 at a concrete one-sink state with an empty buffer. -/
theorem C6_derived_source_only_in_buffer_witness :
    (LoggingService.broadcast [] (fun _ _ => Except.ok ()) "Comp.method" "t0" false
        { maxLogs := 10, applicationName := "application",
          activeCoreLoggers := [.customCore 7],
          inMemoryLogger := some ⟨[], 10⟩, storage := [] }
        .info (.strMsg "hello") none none).deriveCount = 1 ∧
    (LoggingService.broadcast [] (fun _ _ => Except.ok ()) "Comp.method" "t0" false
        { maxLogs := 10, applicationName := "application",
          activeCoreLoggers := [.customCore 7],
          inMemoryLogger := some ⟨[], 10⟩, storage := [] }
        .info (.strMsg "hello") none none).invocations
      = [(.customCore 7,
          { level := .info, messageOrEvent := .strMsg "hello", data := none,
            source := none })] :=
  ⟨(C6_derived_source_only_in_buffer [] (fun _ _ => Except.ok ()) "Comp.method" "t0"
      { maxLogs := 10, applicationName := "application",
        activeCoreLoggers := [.customCore 7],
        inMemoryLogger := some ⟨[], 10⟩, storage := [] }
      .info (.strMsg "hello") none ⟨[], 10⟩ rfl).1,
   (C6_derived_source_only_in_buffer [] (fun _ _ => Except.ok ()) "Comp.method" "t0"
      { maxLogs := 10, applicationName := "application",
        activeCoreLoggers := [.customCore 7],
        inMemoryLogger := some ⟨[], 10⟩, storage := [] }
      .info (.strMsg "hello") none ⟨[], 10⟩ rfl).2.1⟩

/-! ### Claim C7 -/

namespace LoggingService

theorem configure_applicationName (heap : Heap)
    (opts : ILoggingConfigurationOptions) (st : ServiceState) :
    (configure heap opts st).applicationName
      = resolveAppName opts.applicationName st.applicationName := rfl

theorem configure_maxLogs (heap : Heap) (opts : ILoggingConfigurationOptions)
    (st : ServiceState) :
    (configure heap opts st).maxLogs = opts.maxLogs.getD st.maxLogs := rfl

theorem configure_cores (heap : Heap) (opts : ILoggingConfigurationOptions)
    (st : ServiceState) :
    (configure heap opts st).activeCoreLoggers
      = buildCores opts (resolveAppName opts.applicationName st.applicationName) := rfl

theorem configure_inMemoryLogger (heap : Heap)
    (opts : ILoggingConfigurationOptions) (st : ServiceState) :
    (configure heap opts st).inMemoryLogger
      = some (hydrate heap
          (resolveAppName opts.applicationName st.applicationName ++ "-logs")
          st.storage (baseInMemory opts st (opts.maxLogs.getD st.maxLogs))) := rfl

theorem configure_storage (heap : Heap) (opts : ILoggingConfigurationOptions)
    (st : ServiceState) :
    (configure heap opts st).storage = st.storage := rfl

theorem resolveAppName_idem (o : Option String) (p : String) :
    resolveAppName o (resolveAppName o p) = resolveAppName o p := by
  cases o with
  | none => rfl
  | some a =>
    by_cases h : a = ""
    · simp [resolveAppName, h]
    · simp [resolveAppName, h]

theorem hydrate_none (heap : Heap) (key : String) (store : LocalStore)
    (im : InMemoryCoreLogger) (h : storeGet key store = none) :
    hydrate heap key store im = im := by
  unfold hydrate
  rw [h]

theorem baseInMemory_some (opts : ILoggingConfigurationOptions)
    (st : ServiceState) (im : InMemoryCoreLogger) (maxL : Nat)
    (h : st.inMemoryLogger = some im) :
    baseInMemory opts st maxL
      = match opts.maxLogs with
        | some ml => im.setMaxLogs ml
        | none => im := by
  unfold baseInMemory
  rw [h]

theorem setMaxLogs_baseInMemory (opts : ILoggingConfigurationOptions)
    (st : ServiceState) (maxL : Nat) (ml : Nat) (h : opts.maxLogs = some ml) :
    (baseInMemory opts st maxL).setMaxLogs ml = baseInMemory opts st maxL := by
  unfold baseInMemory
  cases st.inMemoryLogger <;> simp [h, InMemoryCoreLogger.setMaxLogs]

theorem mem_setCoreLogger_self (c : CoreLogger) (cores : List CoreLogger) :
    c ∈ setCoreLogger c cores := by
  unfold setCoreLogger
  by_cases h : c ∈ cores
  · simp [h]
  · simp [h]

theorem mem_setCoreLogger_of_mem (c c' : CoreLogger) (cores : List CoreLogger)
    (h : c ∈ cores) : c ∈ setCoreLogger c' cores := by
  unfold setCoreLogger
  by_cases h' : c' ∈ cores <;> simp [h', h]

theorem mem_foldl_setCoreLogger (c : CoreLogger) (ids : List Nat)
    (acc : List CoreLogger) (h : c ∈ acc) :
    c ∈ ids.foldl (fun acc id => setCoreLogger (.customCore id) acc) acc := by
  induction ids generalizing acc with
  | nil => exact h
  | cons i rest ih => exact ih _ (mem_setCoreLogger_of_mem _ _ _ h)

/-- The console core is registered whenever `enableConsoleCore` is unset
(the `?? true` default). -/
theorem consoleCore_mem_buildCores (opts : ILoggingConfigurationOptions)
    (appName : String) (h : opts.enableConsoleCore = none) :
    CoreLogger.consoleCore ∈ buildCores opts appName := by
  unfold buildCores
  rw [h]
  simp only [Option.getD_none, if_true]
  have hbase : CoreLogger.consoleCore ∈
      (if opts.enableLocalStorageCore.getD true
       then setCoreLogger (.localStorageCore (appName ++ "-logs"))
              (setCoreLogger .consoleCore [])
       else setCoreLogger .consoleCore []) := by
    by_cases hls : opts.enableLocalStorageCore.getD true = true
    · rw [if_pos hls]
      exact mem_setCoreLogger_of_mem _ _ _ (mem_setCoreLogger_self _ _)
    · rw [if_neg hls]
      exact mem_setCoreLogger_self _ _
  cases hc : opts.customCoreLoggers with
  | none => exact hbase
  | some ids => exact mem_foldl_setCoreLogger _ _ _ hbase

/-- The localStorage core is registered whenever `enableLocalStorageCore`
is unset (the `?? true` default). -/
theorem localStorageCore_mem_buildCores (opts : ILoggingConfigurationOptions)
    (appName : String) (h : opts.enableLocalStorageCore = none) :
    CoreLogger.localStorageCore (appName ++ "-logs") ∈ buildCores opts appName := by
  unfold buildCores
  rw [h]
  simp only [Option.getD_none, if_true]
  have hbase : CoreLogger.localStorageCore (appName ++ "-logs") ∈
      setCoreLogger (.localStorageCore (appName ++ "-logs"))
        (if opts.enableConsoleCore.getD true
         then setCoreLogger .consoleCore [] else []) := mem_setCoreLogger_self _ _
  cases hc : opts.customCoreLoggers with
  | none => exact hbase
  | some ids => exact mem_foldl_setCoreLogger _ _ _ hbase

end LoggingService

/-- Extensionality for the modelled service state. -/
theorem ServiceState.ext' (a b : ServiceState)
    (h1 : a.maxLogs = b.maxLogs) (h2 : a.applicationName = b.applicationName)
    (h3 : a.activeCoreLoggers = b.activeCoreLoggers)
    (h4 : a.inMemoryLogger = b.inMemoryLogger)
    (h5 : a.storage = b.storage) : a = b := by
  cases a
  cases b
  simp_all

/--
Counterexample to C7 as stated: disabling the console and storage sinks
and then configuring with only `maxLogs` set does NOT leave both sinks
disabled — the unset enable flags fall back to their `?? true` defaults
(`options?.enableConsoleCore ?? true`), so both sinks are re-registered.
-/
theorem C7_reset_to_default_cex :
    (LoggingService.configure []
        { enableConsoleCore := some false, enableLocalStorageCore := some false }
        { maxLogs := 1000, applicationName := "application",
          activeCoreLoggers := [.consoleCore, .localStorageCore "application-logs"],
          inMemoryLogger := some ⟨[], 1000⟩, storage := [] }).activeCoreLoggers
      = [] ∧
    (LoggingService.configure [] { maxLogs := some 5 }
        (LoggingService.configure []
          { enableConsoleCore := some false, enableLocalStorageCore := some false }
          { maxLogs := 1000, applicationName := "application",
            activeCoreLoggers := [.consoleCore, .localStorageCore "application-logs"],
            inMemoryLogger := some ⟨[], 1000⟩, storage := [] })).activeCoreLoggers
      = [.consoleCore, .localStorageCore "application-logs"] := by
  constructor
  · rfl
  · rfl

/--
C7 (amended): configure is safe to call repeatedly and idempotent provided
no persisted records sit under the derived storage key (re-running it with
the same options changes nothing); `applicationName` and `maxLogs` retain
their prior values when unset; but the sink-enable flags do NOT retain
prior values — when unset they fall back to enabled (`?? true`), so
configuring with only `maxLogs` set after disabling the console and
storage sinks re-enables both.
-/
theorem C7_configure_retention (heap : Heap)
    (opts : ILoggingConfigurationOptions) (st : ServiceState) :
    (opts.applicationName = none →
      (LoggingService.configure heap opts st).applicationName
        = st.applicationName) ∧
    (opts.maxLogs = none →
      (LoggingService.configure heap opts st).maxLogs = st.maxLogs) ∧
    (opts.enableConsoleCore = none →
      CoreLogger.consoleCore
        ∈ (LoggingService.configure heap opts st).activeCoreLoggers) ∧
    (opts.enableLocalStorageCore = none →
      CoreLogger.localStorageCore
          ((LoggingService.configure heap opts st).applicationName ++ "-logs")
        ∈ (LoggingService.configure heap opts st).activeCoreLoggers) ∧
    (storeGet ((LoggingService.configure heap opts st).applicationName ++ "-logs")
        st.storage = none →
      LoggingService.configure heap opts (LoggingService.configure heap opts st)
        = LoggingService.configure heap opts st) := by
  refine ⟨?_, ?_, ?_, ?_, ?_⟩
  · intro h
    rw [LoggingService.configure_applicationName, h]
    rfl
  · intro h
    rw [LoggingService.configure_maxLogs, h]
    rfl
  · intro h
    rw [LoggingService.configure_cores]
    exact LoggingService.consoleCore_mem_buildCores opts _ h
  · intro h
    rw [LoggingService.configure_cores, LoggingService.configure_applicationName]
    exact LoggingService.localStorageCore_mem_buildCores opts _ h
  · intro hkey
    rw [LoggingService.configure_applicationName] at hkey
    have happ := LoggingService.resolveAppName_idem opts.applicationName st.applicationName
    have hmax' : opts.maxLogs.getD (opts.maxLogs.getD st.maxLogs)
        = opts.maxLogs.getD st.maxLogs := by
      cases opts.maxLogs <;> rfl
    have hinner :
        LoggingService.hydrate heap
            (LoggingService.resolveAppName opts.applicationName st.applicationName ++ "-logs")
            st.storage
            (LoggingService.baseInMemory opts st (opts.maxLogs.getD st.maxLogs))
          = LoggingService.baseInMemory opts st (opts.maxLogs.getD st.maxLogs) :=
      LoggingService.hydrate_none _ _ _ _ hkey
    have hbase2 :
        LoggingService.baseInMemory opts (LoggingService.configure heap opts st)
            (opts.maxLogs.getD st.maxLogs)
          = LoggingService.baseInMemory opts st (opts.maxLogs.getD st.maxLogs) := by
      rw [LoggingService.baseInMemory_some opts _ _ _
            (by rw [LoggingService.configure_inMemoryLogger, hinner])]
      cases hml : opts.maxLogs with
      | none => rfl
      | some ml => exact LoggingService.setMaxLogs_baseInMemory opts st _ ml hml
    apply ServiceState.ext'
    · simp only [LoggingService.configure_maxLogs]
      exact hmax'
    · simp only [LoggingService.configure_applicationName]
      exact happ
    · simp only [LoggingService.configure_cores,
        LoggingService.configure_applicationName, happ]
    · simp only [LoggingService.configure_inMemoryLogger,
        LoggingService.configure_applicationName,
        LoggingService.configure_storage, LoggingService.configure_maxLogs,
        hmax', happ]
      rw [hbase2, hinner]
    · simp only [LoggingService.configure_storage]

/-- Witness for C7 at a concrete state with unset options. -/
theorem C7_configure_retention_witness :
    ((ILoggingConfigurationOptions.mk none none none none none).applicationName = none) ∧
    (LoggingService.configure [] {}
        { maxLogs := 42, applicationName := "myApp",
          activeCoreLoggers := [], inMemoryLogger := some ⟨[], 42⟩,
          storage := [] }).applicationName = "myApp" :=
  ⟨rfl,
   (C7_configure_retention [] {}
      { maxLogs := 42, applicationName := "myApp",
        activeCoreLoggers := [], inMemoryLogger := some ⟨[], 42⟩,
        storage := [] }).1 rfl⟩

/-! ### Claim C8 -/

/-- A concrete persisted record, as the storage sink writes it. -/
def peA : PersistedEntry :=
  { timestamp := "2023-01-01T00:00:00.000Z", level := .info,
    message := "persisted", data := none, source := none }

/--
Counterexample to C8 as stated: when the persisted storage key holds
records, re-running configure does more than update the buffer's capacity:
it re-hydrates the persisted records into the canonical buffer, so the
accumulated records are not preserved unchanged (here a 1-record buffer
becomes a 2-record buffer under an options-free reconfiguration).
-/
theorem C8_rehydration_cex :
    ((LoggingService.configure [] {}
        { maxLogs := 1000, applicationName := "application",
          activeCoreLoggers := [], inMemoryLogger := some ⟨[storedOf [] entryA], 1000⟩,
          storage := [("application-logs", [peA])] }).inMemoryLogger.map
        (fun im => im.logs.length))
      = some 2 ∧
    ¬ (((LoggingService.configure [] {}
        { maxLogs := 1000, applicationName := "application",
          activeCoreLoggers := [], inMemoryLogger := some ⟨[storedOf [] entryA], 1000⟩,
          storage := [("application-logs", [peA])] }).inMemoryLogger.map
        (fun im => im.logs.length))
      = some 1) := by
  constructor
  · rfl
  · intro h
    have h2 : (2 : Nat) = 1 := by
      have h1 : (some 2 : Option Nat) = some 1 := by
        rw [show (some 2 : Option Nat)
              = ((LoggingService.configure [] {}
                  { maxLogs := 1000, applicationName := "application",
                    activeCoreLoggers := [],
                    inMemoryLogger := some ⟨[storedOf [] entryA], 1000⟩,
                    storage := [("application-logs", [peA])] }).inMemoryLogger.map
                  (fun im => im.logs.length)) from rfl]
        exact h
      exact Option.some.inj h1
    exact absurd h2 (by decide)

/--
C8 (amended): re-running configure fully replaces the registered-sink list
(the new list is rebuilt from the options alone, independent of the
previous registration), preserves the canonical buffer's accumulated
records, and — provided no records are persisted under the derived storage
key — the only mutation applied to the buffer is updating its capacity
when `maxLogs` is supplied; when the storage key does hold records, they
are additionally appended to the buffer by hydration.
-/
theorem C8_reconfigure_frame (heap : Heap)
    (opts : ILoggingConfigurationOptions) (st : ServiceState)
    (im : InMemoryCoreLogger) (him : st.inMemoryLogger = some im)
    (hkey : storeGet ((LoggingService.configure heap opts st).applicationName
        ++ "-logs") st.storage = none) :
    (LoggingService.configure heap opts st).activeCoreLoggers
      = LoggingService.buildCores opts
          ((LoggingService.configure heap opts st).applicationName) ∧
    (LoggingService.configure heap opts st).inMemoryLogger
      = some { im with maxLogs := opts.maxLogs.getD im.maxLogs } := by
  rw [LoggingService.configure_applicationName] at hkey ⊢
  constructor
  · rw [LoggingService.configure_cores]
  · rw [LoggingService.configure_inMemoryLogger,
        LoggingService.hydrate_none _ _ _ _ hkey,
        LoggingService.baseInMemory_some opts st im _ him]
    cases opts.maxLogs with
    | none => rfl
    | some ml => rfl

/-- Witness for C8 at a concrete already-initialized state with empty
storage and a stale sink list. -/
theorem C8_reconfigure_frame_witness :
    (LoggingService.configure [] { maxLogs := some 7 }
        { maxLogs := 1000, applicationName := "application",
          activeCoreLoggers := [.customCore 3],
          inMemoryLogger := some ⟨[storedOf [] entryA], 1000⟩,
          storage := [] }).inMemoryLogger
      = some { logs := [storedOf [] entryA], maxLogs := 7 } :=
  (C8_reconfigure_frame [] { maxLogs := some 7 }
      { maxLogs := 1000, applicationName := "application",
        activeCoreLoggers := [.customCore 3],
        inMemoryLogger := some ⟨[storedOf [] entryA], 1000⟩,
        storage := [] }
      ⟨[storedOf [] entryA], 1000⟩ rfl rfl).2

/-! ### Claim C9 -/

theorem storeGet_storeRemove (key : String) (s : LocalStore) :
    storeGet key (storeRemove key s) = none := by
  induction s with
  | nil => rfl
  | cons kv rest ih =>
    obtain ⟨k0, v0⟩ := kv
    by_cases h : k0 = key
    · simp [storeRemove, h, ih]
    · simp [storeRemove, h, storeGet, ih]

/--
C9: `clearLogs` empties the canonical buffer (when one is registered),
removes the persisted storage entry under `"<applicationName>-logs"`
unconditionally — the operation never consults the registered-sink list,
so this holds whether or not the storage sink is registered — and leaves
the buffer's `maxSize` unchanged.
-/
theorem C9_clear (st : ServiceState) :
    (LoggingService.clearLogs st).inMemoryLogger
      = st.inMemoryLogger.map (fun im => { im with logs := [] }) ∧
    storeGet (st.applicationName ++ "-logs")
        (LoggingService.clearLogs st).storage = none ∧
    (LoggingService.clearLogs st).inMemoryLogger.map (fun im => im.maxLogs)
      = st.inMemoryLogger.map (fun im => im.maxLogs) ∧
    (LoggingService.clearLogs st).storage
      = storeRemove (st.applicationName ++ "-logs") st.storage := by
  refine ⟨rfl, ?_, ?_, rfl⟩
  · exact storeGet_storeRemove _ _
  · rw [show (LoggingService.clearLogs st).inMemoryLogger
        = st.inMemoryLogger.map (fun im => { im with logs := [] }) from rfl]
    cases st.inMemoryLogger <;> rfl

/-! ### Claim C10 -/

/--
C10: for event-shaped inputs, the non-canonical sinks do not apply the
canonical normalizer's extraction.  The console sink's rendered message is
exactly `"<type> event"` — no error-event `"(file:line)"` suffix and no
target name — for both generic events and error events; and the storage
sink persists an entry whose message is likewise exactly `"<type> event"`
and whose data is exactly the serialized caller-supplied data (absent when
no caller data is given), with no fields extracted from the event.
-/
theorem C10_sinks_skip_extraction (heap : Heap) (ts storageKey : String)
    (maxStored : Nat) (store : LocalStore) (level : LogLevel)
    (ty msg fn : String) (ln cn : Nat) (er : Option JSVal)
    (tgt : Option String) (tsp : Nat) (req : Option ReqLike)
    (data : Option JSVal) (source : Option String) :
    ConsoleCoreLogger.message (.genericEvent ty tgt tsp req) = ty ++ " event" ∧
    ConsoleCoreLogger.message (.errorEvent ty msg fn ln cn er) = ty ++ " event" ∧
    LocalStorageCoreLogger.log heap ts storageKey maxStored store level
        (.genericEvent ty tgt tsp req) data source
      = storeSet storageKey
          (jsSliceLast maxStored ((storeGet storageKey store).getD []
            ++ [{ timestamp := ts, level := level, message := ty ++ " event",
                  data := match data with
                          | some d => if jsTruthy d
                                      then some (safeSerialize heap d) else none
                          | none => none,
                  source := source }])) store ∧
    LocalStorageCoreLogger.log heap ts storageKey maxStored store level
        (.errorEvent ty msg fn ln cn er) data source
      = storeSet storageKey
          (jsSliceLast maxStored ((storeGet storageKey store).getD []
            ++ [{ timestamp := ts, level := level, message := ty ++ " event",
                  data := match data with
                          | some d => if jsTruthy d
                                      then some (safeSerialize heap d) else none
                          | none => none,
                  source := source }])) store :=
  ⟨rfl, rfl, rfl, rfl⟩
